import Mathlib

/-!
Verification of the LDID library (`src/id.go`, package `id`).

The package builds a 128-bit identifier out of five bit-packed subfields
(timestamp 48 bits, version 4 bits, randA 12 bits, variant 2 bits,
randB 62 bits), renders it in the canonical 8-4-4-4-12 hyphenated
lowercase-hex UUID form, and parses that form back.

The bit container comes from the external library
`go.loafoe.dev/bitfield/v2`, whose source is not part of this repository;
it is modelled here from the specification (spec.md section 4.1): a
fixed-width big-endian bit buffer over 16 bytes, with bounds-checked
insertion and extraction of unsigned integers at arbitrary bit offsets,
oversized inserted values being truncated modulo 2 to the width (the
truncating branch of the spec, which is the behaviour the tests of the
repository rely on).  Everything else is translated directly from
`src/id.go`.

Representation choices:
  - a `uint64` is a `Nat` (theorems quantify over all of `Nat`, a
    superset of the Go values);
  - a big-endian bit buffer of `size` bits is a `Nat` below `2 to the
    size`, the integer whose binary expansion, padded to `size` bits,
    lists the bits of the buffer most significant first (bit offset 0 is the
    most significant bit of byte 0, as the spec requires);
  - a Go `(T, error)` return is `Except String T`, `Option T` where only
    success/failure is observable;
  - `crypto/rand.Int(reader, max)`, used by `GenerateRandomBits`, returns
    a uniformly distributed integer in `[0, max)` and panics when
    `max <= 0`.  Its support is modelled by an oracle argument `k`
    ranging over all naturals, the draw being `k % max`: exactly the
    values `0 .. max-1` are reachable.  A failing reader is modelled by
    `ReadResult.fail`.
-/

set_option maxRecDepth 2000

/-- Size of the timestamp field in bits (src/id.go). -/
def timestampSize : Nat := 48

/-- Offset of the timestamp field in bits (src/id.go). -/
def timestampOffset : Nat := 0

/-- Size of the version field in bits (src/id.go). -/
def versionSize : Nat := 4

/-- Offset of the version field in bits (src/id.go). -/
def versionOffset : Nat := 48

/-- Size of the random data A field in bits (src/id.go). -/
def randASize : Nat := 12

/-- Offset of the random data A field in bits (src/id.go). -/
def randAOffset : Nat := 52

/-- Size of the variant field in bits (src/id.go). -/
def variantSize : Nat := 2

/-- Offset of the variant field in bits (src/id.go). -/
def variantOffset : Nat := 64

/-- Size of the random data B field in bits (src/id.go). -/
def randBSize : Nat := 62

/-- Offset of the random data B field in bits (src/id.go). -/
def randBOffset : Nat := 66

/-- Alias for `String`, so that the method `LDID.String` below can keep
its Go name while its signature still refers to the Lean string type. -/
abbrev Str := String

/-- Modelled from the spec: the bit container of `go.loafoe.dev/bitfield/v2`
(spec 4.1), a fixed-width big-endian bit buffer.  `size` is the total bit
width fixed at construction; `val` is the buffer contents read as one
big-endian `size`-bit unsigned integer. -/
structure BitField where
  size : Nat
  val : Nat
deriving DecidableEq

/-- Modelled from the spec: `bitfield.BigEndian.New(n)` creates a zeroed
buffer of `n` bits. -/
def BitField.new (n : Nat) : BitField := ⟨n, 0⟩

/-- Writes the low `w` bits of `v` into big-endian bit positions
`[off, off+w)` of a `size`-bit buffer holding `val`.  Big-endian position
`off` is integer bit `size - off - 1`, so the field occupies integer bits
`[size-off-w, size-off)`. -/
def writeBits (size val off w v : Nat) : Nat :=
  (val / 2 ^ (size - off)) * 2 ^ (size - off)
    + (v % 2 ^ w) * 2 ^ (size - off - w)
    + val % 2 ^ (size - off - w)

/-- Modelled from the spec: `InsertUint64(off, w, v)` (spec 4.1 insert).
Requires `w` in `[1, 64]` and `off + w` within the buffer, else a
RangeError; an oversized value is truncated modulo `2 ^ w` (the
truncating branch of the spec, which the tests of the repository exercise). -/
def BitField.insertUint64 (bf : BitField) (off w v : Nat) : Except Str BitField :=
  if 1 ≤ w ∧ w ≤ 64 ∧ off + w ≤ bf.size then
    .ok ⟨bf.size, writeBits bf.size bf.val off w v⟩
  else
    .error "bitfield: insert out of range"

/-- Modelled from the spec: `ExtractUint64(off, w)` (spec 4.1 extract).
Reads `w` bits starting at big-endian offset `off`, right-aligned. -/
def BitField.extractUint64 (bf : BitField) (off w : Nat) : Except Str Nat :=
  if 1 ≤ w ∧ w ≤ 64 ∧ off + w ≤ bf.size then
    .ok (bf.val / 2 ^ (bf.size - off - w) % 2 ^ w)
  else
    .error "bitfield: extract out of range"

/-- The `len` big-endian bytes of `v` (most significant first). -/
def beBytes : Nat → Nat → List Nat
  | 0, _ => []
  | len + 1, v => v / 2 ^ (8 * len) % 256 :: beBytes len v

/-- The unsigned big-endian integer named by a byte list. -/
def beVal : List Nat → Nat
  | [] => 0
  | b :: bs => b * 2 ^ (8 * bs.length) + beVal bs

/-- Modelled from the spec: `Bytes()` returns the raw buffer contents as
big-endian bytes (spec 4.1 bytes). -/
def BitField.bytes (bf : BitField) : List Nat := beBytes (bf.size / 8) bf.val

/-- Modelled from the spec: `bitfield.BigEndian.FromBytes` reconstructs a
container from an externally supplied exact-length byte sequence
(spec 4.1 from_bytes): the declared bit width is the byte length times
eight. -/
def BitField.fromBytes (bs : List Nat) : BitField := ⟨8 * bs.length, beVal bs⟩

/-- The LDID of src/id.go: a wrapper around its (exclusively owned) bit
container. -/
structure LDID where
  bf : BitField
deriving DecidableEq

/-- The `Generator` interface of src/id.go, as the pair of values its two
methods return during one construction: `GenerateUnixTimestampMS()` and
`GenerateRandomBits(rand.Reader, n)` for each requested width `n`.  (The
`randReader` argument that Go threads through is `rand.Reader` for every
call made by `NewWithGenerator` and is folded into the method.) -/
structure Generator where
  generateUnixTimestampMS : Nat
  generateRandomBits : Int → Except Str Nat

/-- Outcome of the entropy reader passed to `crypto/rand.Int`: either a
working stream (abstracted to the oracle value the uniform draw
realizes) or a read failure with its message. -/
inductive ReadResult where
  | ok (k : Nat)
  | fail (msg : Str)
deriving DecidableEq

/-- Method `GenerateRandomBits(randReader, n)` of `DefaultGenerator` in src/id.go:
computes `max = 2^n - 1` via `big.Int.Exp` (which yields `1` for a
negative exponent, hence `max = 0` for every `n <= 0`), rejects a `max`
that does not fit a `uint64`, then calls `crypto/rand.Int(randReader, max)`
-- uniform in `[0, max)`, its panic on `max <= 0` recovered into an
error by the deferred handler. -/
def GenerateRandomBits (r : ReadResult) (n : Int) : Except Str Nat :=
  let mx : Nat := (if n < 0 then 1 else 2 ^ n.toNat) - 1
  if 2 ^ 64 ≤ mx then
    .error "failed to generate random bits: n is too large to fit in a uint64"
  else if mx = 0 then
    .error "crypto/rand: argument to Int is <= 0"
  else
    match r with
    | .fail msg => .error ("failed to generate random bits: " ++ msg)
    | .ok k => .ok (k % mx)

/-- Function `NewWithGenerator` of src/id.go: draws the timestamp, the 12-bit and
the 62-bit random values, then inserts the five fields at their declared
offsets into a fresh 128-bit buffer.  (In Go the library records a sticky
error checked once via `bf.Error()`; sequencing the checked inserts in
`Except` is equivalent: the construction succeeds exactly when no insert
reported an error.) -/
def NewWithGenerator (g : Generator) : Except Str LDID := do
  let bf := BitField.new 128
  let timestamp := g.generateUnixTimestampMS
  let version : Nat := 7
  let randA ← g.generateRandomBits 12
  let variant : Nat := 2
  let randB ← g.generateRandomBits 62
  let bf ← bf.insertUint64 timestampOffset timestampSize timestamp
  let bf ← bf.insertUint64 versionOffset versionSize version
  let bf ← bf.insertUint64 randAOffset randASize randA
  let bf ← bf.insertUint64 variantOffset variantSize variant
  let bf ← bf.insertUint64 randBOffset randBSize randB
  pure ⟨bf⟩

/-- Helper `fromHexChar` of the Go package encoding/hex: the value of one hex digit, upper or
lower case, `none` on any other character. -/
def hexCharVal (c : Char) : Option Nat :=
  if '0' ≤ c ∧ c ≤ '9' then some (c.toNat - 48)
  else if 'a' ≤ c ∧ c ≤ 'f' then some (c.toNat - 87)
  else if 'A' ≤ c ∧ c ≤ 'F' then some (c.toNat - 55)
  else none

/-- Function `encoding/hex.DecodeString`: decodes pairs of hex digits into bytes;
fails on any non-hex character and on odd length. -/
def decodeHexList : List Char → Option (List Nat)
  | [] => some []
  | c1 :: c2 :: rest => do
    let h ← hexCharVal c1
    let l ← hexCharVal c2
    let bs ← decodeHexList rest
    pure ((h * 16 + l) :: bs)
  | [_] => none

/-- Function `parseUUIDString` of src/id.go: removes every hyphen
(`strings.ReplaceAll(s, "-", "")`) and hex-decodes what remains.  Note:
no length check of any kind. -/
def parseUUIDString (s : Str) : Option (List Nat) :=
  decodeHexList (s.data.filter (fun c => c ≠ '-'))

/-- Function `FromString` of src/id.go: parses the hyphen-stripped hex string into
bytes and wraps them as a container.  `none` models the non-nil Go
error. -/
def FromString (s : Str) : Option LDID :=
  (parseUUIDString s).map (fun bytes => ⟨BitField.fromBytes bytes⟩)

/-- The lowercase hex digit for a value below 16 (as printed by the Go
verb `%x`). -/
def hexDigit (n : Nat) : Char :=
  if n < 10 then Char.ofNat (48 + n) else Char.ofNat (87 + n)

/-- Two lowercase hex digits per byte, in order (the Go verb `%x` on a byte
slice). -/
def renderHexChars : List Nat → List Char
  | [] => []
  | b :: bs => hexDigit (b / 16) :: hexDigit (b % 16) :: renderHexChars bs

/-- The character sequence produced in src/id.go by
`fmt.Sprintf("%08x-%04x-%04x-%04x-%012x", bytes[0:4], bytes[4:6],
bytes[6:8], bytes[8:10], bytes[10:])`: the byte groups rendered as
lowercase hex, separated by hyphens.  (Each verb has a minimum width equal to
twice the byte count of its group, so no padding ever takes effect.) -/
def canonicalChars (bs : List Nat) : List Char :=
  renderHexChars (bs.take 4)
    ++ ('-' :: (renderHexChars ((bs.drop 4).take 2)
    ++ ('-' :: (renderHexChars ((bs.drop 6).take 2)
    ++ ('-' :: (renderHexChars ((bs.drop 8).take 2)
    ++ ('-' :: renderHexChars (bs.drop 10))))))))

/-- Method `String()` of LDID in src/id.go. -/
def LDID.String (id : LDID) : Str := ⟨canonicalChars id.bf.bytes⟩

/-- Method `Bytes()` of LDID in src/id.go. -/
def LDID.Bytes (id : LDID) : List Nat := id.bf.bytes

/-- Method `Timestamp()` of LDID in src/id.go. -/
def LDID.Timestamp (id : LDID) : Except Str Nat :=
  id.bf.extractUint64 timestampOffset timestampSize

/-- Method `Version()` of LDID in src/id.go. -/
def LDID.Version (id : LDID) : Except Str Nat :=
  id.bf.extractUint64 versionOffset versionSize

/-- Method `RandA()` of LDID in src/id.go. -/
def LDID.RandA (id : LDID) : Except Str Nat :=
  id.bf.extractUint64 randAOffset randASize

/-- Method `Variant()` of LDID in src/id.go. -/
def LDID.Variant (id : LDID) : Except Str Nat :=
  id.bf.extractUint64 variantOffset variantSize

/-- Method `RandB()` of LDID in src/id.go. -/
def LDID.RandB (id : LDID) : Except Str Nat :=
  id.bf.extractUint64 randBOffset randBSize

/-- One lowercase hex digit, as the regular-expression class `[0-9a-f]`. -/
def isLowerHexDigit (c : Char) : Bool :=
  ('0' ≤ c && c ≤ '9') || ('a' ≤ c && c ≤ 'f')

/-- Anchored matcher for hyphen-separated groups of lowercase hex digits
with the given group lengths: `matchGroups [8,4,4,4,12] cs` is the
regular expression
`[0-9a-f]{8}-[0-9a-f]{4}-[0-9a-f]{4}-[0-9a-f]{4}-[0-9a-f]{12}`
anchored at both ends. -/
def matchGroups : List Nat → List Char → Bool
  | [], cs => cs.isEmpty
  | n :: ns, cs =>
    ((cs.take n).length == n && (cs.take n).all isLowerHexDigit) &&
      (match ns, cs.drop n with
       | [], [] => true
       | _ :: _, '-' :: rest => matchGroups ns rest
       | _, _ => false)

/-- The canonical UUID-shaped pattern of the spec:
`[0-9a-f]{8}-[0-9a-f]{4}-[0-9a-f]{4}-[0-9a-f]{4}-[0-9a-f]{12}`. -/
def matchesCanonicalPattern (s : Str) : Bool :=
  matchGroups [8, 4, 4, 4, 12] s.data

/-- The 128-bit value produced by the five inserts of `NewWithGenerator`
for timestamp `ts` and random draws `a` (12 bits) and `b` (62 bits):
the closed form of the construction. -/
def mkVal (ts a b : Nat) : Nat :=
  ts % 2 ^ 48 * 2 ^ 80 + 7 * 2 ^ 76 + a % 2 ^ 12 * 2 ^ 64 + 2 * 2 ^ 62 + b % 2 ^ 62

/-! ### Support lemmas -/

theorem ok_bind {α β : Type} (a : α) (f : α → Except Str β) :
    (Except.ok a : Except Str α) >>= f = f a := rfl

theorem error_bind {α β : Type} (e : Str) (f : α → Except Str β) :
    (Except.error e : Except Str α) >>= f = .error e := rfl

theorem ok_map {α β : Type} (a : α) (f : α → β) :
    f <$> (Except.ok a : Except Str α) = Except.ok (f a) := rfl

theorem beBytes_length (len v : Nat) : (beBytes len v).length = len := by
  induction len with
  | zero => rfl
  | succ n ih => simp [beBytes, ih]

theorem beBytes_lt (len v : Nat) : ∀ b ∈ beBytes len v, b < 256 := by
  induction len with
  | zero => simp [beBytes]
  | succ n ih =>
    intro b hb
    rcases List.mem_cons.mp hb with h | h
    · subst h
      exact Nat.mod_lt _ (by norm_num)
    · exact ih b h

theorem beVal_beBytes (len v : Nat) : beVal (beBytes len v) = v % 2 ^ (8 * len) := by
  induction len with
  | zero => simp [beBytes, beVal, Nat.mod_one]
  | succ n ih =>
    have hm : (8 : Nat) * (n + 1) = 8 * n + 8 := by ring
    rw [hm, pow_add]
    show v / 2 ^ (8 * n) % 256 * 2 ^ (8 * (beBytes n v).length) + beVal (beBytes n v)
      = v % (2 ^ (8 * n) * 2 ^ 8)
    rw [beBytes_length, ih]
    have h8 : (2 : Nat) ^ 8 = 256 := by norm_num
    rw [h8, Nat.mod_mul]
    ring

theorem insert_chain (t a b : Nat) :
    writeBits 128 (writeBits 128 (writeBits 128 (writeBits 128
      (writeBits 128 0 0 48 t) 48 4 7) 52 12 a) 64 2 2) 66 62 b = mkVal t a b := by
  unfold writeBits mkVal
  norm_num
  omega

theorem mkVal_lt (t a b : Nat) : mkVal t a b < 2 ^ 128 := by
  unfold mkVal
  norm_num
  omega

theorem newWithGenerator_ok (g : Generator) (a b : Nat)
    (h12 : g.generateRandomBits 12 = .ok a) (h62 : g.generateRandomBits 62 = .ok b) :
    NewWithGenerator g = .ok ⟨⟨128, mkVal g.generateUnixTimestampMS a b⟩⟩ := by
  unfold NewWithGenerator
  simp only [h12, h62, ok_bind, BitField.new, BitField.insertUint64,
    timestampOffset, timestampSize, versionOffset, versionSize,
    randAOffset, randASize, variantOffset, variantSize, randBOffset, randBSize]
  norm_num [ok_bind, ok_map, insert_chain]

theorem newWithGenerator_inv (g : Generator) (x : LDID)
    (h : NewWithGenerator g = .ok x) :
    ∃ a b, g.generateRandomBits 12 = .ok a ∧ g.generateRandomBits 62 = .ok b ∧
      x = ⟨⟨128, mkVal g.generateUnixTimestampMS a b⟩⟩ := by
  cases h12 : g.generateRandomBits 12 with
  | error e =>
    unfold NewWithGenerator at h
    simp only [h12, error_bind] at h
    exact absurd h (by simp)
  | ok a =>
    cases h62 : g.generateRandomBits 62 with
    | error e =>
      unfold NewWithGenerator at h
      simp only [h12, h62, ok_bind, error_bind] at h
      exact absurd h (by simp)
    | ok b =>
      refine ⟨a, b, rfl, rfl, ?_⟩
      have hk := newWithGenerator_ok g a b h12 h62
      rw [hk] at h
      injection h with h'
      exact h'.symm

theorem Timestamp_mk (t a b : Nat) :
    LDID.Timestamp ⟨⟨128, mkVal t a b⟩⟩ = .ok (t % 2 ^ 48) := by
  simp only [LDID.Timestamp, BitField.extractUint64, timestampOffset, timestampSize]
  norm_num [mkVal]
  omega

theorem Version_mk (t a b : Nat) :
    LDID.Version ⟨⟨128, mkVal t a b⟩⟩ = .ok 7 := by
  simp only [LDID.Version, BitField.extractUint64, versionOffset, versionSize]
  norm_num [mkVal]
  omega

theorem RandA_mk (t a b : Nat) :
    LDID.RandA ⟨⟨128, mkVal t a b⟩⟩ = .ok (a % 2 ^ 12) := by
  simp only [LDID.RandA, BitField.extractUint64, randAOffset, randASize]
  norm_num [mkVal]
  omega

theorem Variant_mk (t a b : Nat) :
    LDID.Variant ⟨⟨128, mkVal t a b⟩⟩ = .ok 2 := by
  simp only [LDID.Variant, BitField.extractUint64, variantOffset, variantSize]
  norm_num [mkVal]
  omega

theorem RandB_mk (t a b : Nat) :
    LDID.RandB ⟨⟨128, mkVal t a b⟩⟩ = .ok (b % 2 ^ 62) := by
  simp only [LDID.RandB, BitField.extractUint64, randBOffset, randBSize]
  norm_num [mkVal]
  omega

theorem extract_after_insert (u off w v : Nat) (hoff : off + w ≤ 128) :
    writeBits 128 u off w v / 2 ^ (128 - off - w) % 2 ^ w = v % 2 ^ w := by
  unfold writeBits
  set lo := 128 - off - w with hlo
  rw [show (128 : Nat) - off = lo + w by omega]
  have e : u / 2 ^ (lo + w) * 2 ^ (lo + w) + v % 2 ^ w * 2 ^ lo + u % 2 ^ lo
      = u % 2 ^ lo + (2 ^ w * (u / 2 ^ (lo + w)) + v % 2 ^ w) * 2 ^ lo := by
    rw [pow_add]
    ring
  rw [e, Nat.add_mul_div_right _ _ (pow_pos (by norm_num) lo),
    Nat.div_eq_of_lt (Nat.mod_lt _ (pow_pos (by norm_num) lo)), zero_add,
    Nat.mul_add_mod, Nat.mod_mod_of_dvd _ dvd_rfl]

theorem hexCharVal_hexDigit (d : Nat) (h : d < 16) : hexCharVal (hexDigit d) = some d := by
  revert d
  decide

theorem isLowerHexDigit_hexDigit (d : Nat) (h : d < 16) :
    isLowerHexDigit (hexDigit d) = true := by
  revert d
  decide

theorem hexDigit_ne_hyphen (d : Nat) (h : d < 16) : hexDigit d ≠ '-' := by
  revert d
  decide

theorem hexCharVal_isSome_of_lower (c : Char) (h : isLowerHexDigit c = true) :
    (hexCharVal c).isSome = true := by
  unfold isLowerHexDigit at h
  simp only [Bool.or_eq_true, Bool.and_eq_true, decide_eq_true_eq] at h
  unfold hexCharVal
  rcases h with ⟨h1, h2⟩ | ⟨h1, h2⟩
  · rw [if_pos ⟨h1, h2⟩]
    rfl
  · by_cases h0 : '0' ≤ c ∧ c ≤ '9'
    · rw [if_pos h0]
      rfl
    · rw [if_neg h0, if_pos ⟨h1, h2⟩]
      rfl

theorem lower_ne_hyphen (c : Char) (h : isLowerHexDigit c = true) : c ≠ '-' := by
  intro he
  subst he
  exact absurd h (by decide)

theorem renderHexChars_append (as bs : List Nat) :
    renderHexChars (as ++ bs) = renderHexChars as ++ renderHexChars bs := by
  induction as with
  | nil => rfl
  | cons b as ih => simp [renderHexChars, ih]

theorem renderHexChars_length (bs : List Nat) :
    (renderHexChars bs).length = 2 * bs.length := by
  induction bs with
  | nil => rfl
  | cons b bs ih =>
    simp [renderHexChars, ih]
    ring

theorem renderHexChars_all (bs : List Nat) (h : ∀ b ∈ bs, b < 256) :
    (renderHexChars bs).all isLowerHexDigit = true := by
  induction bs with
  | nil => rfl
  | cons b bs ih =>
    have hb : b < 256 := h b (List.mem_cons_self _ _)
    simp only [renderHexChars, List.all_cons, Bool.and_eq_true]
    exact ⟨isLowerHexDigit_hexDigit _ (by omega),
      isLowerHexDigit_hexDigit _ (by omega),
      ih (fun x hx => h x (List.mem_cons_of_mem _ hx))⟩

theorem decode_renderHexChars (bs : List Nat) (h : ∀ b ∈ bs, b < 256) :
    decodeHexList (renderHexChars bs) = some bs := by
  induction bs with
  | nil => rfl
  | cons b bs ih =>
    have hb : b < 256 := h b (List.mem_cons_self _ _)
    have h1 : hexCharVal (hexDigit (b / 16)) = some (b / 16) :=
      hexCharVal_hexDigit _ (by omega)
    have h2 : hexCharVal (hexDigit (b % 16)) = some (b % 16) :=
      hexCharVal_hexDigit _ (by omega)
    have ih' := ih (fun x hx => h x (List.mem_cons_of_mem _ hx))
    simp [renderHexChars, decodeHexList, h1, h2, ih']
    omega

theorem decodeHexList_length : ∀ (cs : List Char) (bs : List Nat),
    decodeHexList cs = some bs → cs.length = 2 * bs.length
  | [], bs, h => by
    simp [decodeHexList] at h
    subst h
    rfl
  | [c], bs, h => by
    simp [decodeHexList] at h
  | c1 :: c2 :: rest, bs, h => by
    unfold decodeHexList at h
    cases hv1 : hexCharVal c1 with
    | none =>
      rw [hv1] at h
      simp at h
    | some x =>
      cases hv2 : hexCharVal c2 with
      | none =>
        rw [hv1, hv2] at h
        simp at h
      | some y =>
        cases hd : decodeHexList rest with
        | none =>
          rw [hv1, hv2, hd] at h
          simp at h
        | some bs' =>
          rw [hv1, hv2, hd] at h
          simp at h
          have hr := decodeHexList_length rest bs' hd
          subst h
          simp [List.length_cons, hr]
          ring

theorem decodeHexList_isSome : ∀ cs : List Char,
    (decodeHexList cs).isSome = true ↔
      (cs.length % 2 = 0 ∧ ∀ c ∈ cs, (hexCharVal c).isSome = true)
  | [] => by simp [decodeHexList]
  | [c] => by simp [decodeHexList]
  | c1 :: c2 :: rest => by
    have ih := decodeHexList_isSome rest
    have key : (decodeHexList (c1 :: c2 :: rest)).isSome = true ↔
        ((hexCharVal c1).isSome = true ∧ (hexCharVal c2).isSome = true
          ∧ (decodeHexList rest).isSome = true) := by
      simp only [decodeHexList]
      cases hexCharVal c1 <;> cases hexCharVal c2 <;> cases decodeHexList rest <;> simp
    rw [key, ih]
    simp only [List.forall_mem_cons]
    constructor
    · rintro ⟨hc1, hc2, hlen, hrest⟩
      refine ⟨?_, hc1, hc2, hrest⟩
      simp only [List.length_cons]
      omega
    · rintro ⟨hlen, hc1, hc2, hrest⟩
      refine ⟨hc1, hc2, ?_, hrest⟩
      simp only [List.length_cons] at hlen
      omega

theorem filter_renderHexChars (bs : List Nat) (h : ∀ b ∈ bs, b < 256) :
    (renderHexChars bs).filter (fun c => c ≠ '-') = renderHexChars bs := by
  have hall := renderHexChars_all bs h
  rw [List.filter_eq_self]
  intro a ha
  have hx : isLowerHexDigit a = true := by
    rw [List.all_eq_true] at hall
    exact hall a ha
  simpa using lower_ne_hyphen a hx

theorem take_drop_regroup (bs : List Nat) :
    bs.take 4 ++ ((bs.drop 4).take 2 ++ ((bs.drop 6).take 2
      ++ ((bs.drop 8).take 2 ++ bs.drop 10))) = bs := by
  have h10 : (bs.drop 8).take 2 ++ bs.drop 10 = bs.drop 8 :=
    List.drop_take_append_drop bs 8 2
  have h8 : (bs.drop 6).take 2 ++ bs.drop 8 = bs.drop 6 :=
    List.drop_take_append_drop bs 6 2
  have h6 : (bs.drop 4).take 2 ++ bs.drop 6 = bs.drop 4 :=
    List.drop_take_append_drop bs 4 2
  rw [h10, h8, h6, List.take_append_drop]

theorem matchGroups_strip (ns : List Nat) : ∀ cs : List Char,
    matchGroups ns cs = true →
      ((cs.filter (fun c => c ≠ '-')).length = ns.sum
        ∧ ∀ c ∈ cs.filter (fun c => c ≠ '-'), isLowerHexDigit c = true) := by
  induction ns with
  | nil =>
    intro cs h
    have hc : cs = [] := by simpa [matchGroups] using h
    subst hc
    simp
  | cons n ns ih =>
    intro cs h
    have hfil : cs.filter (fun c => c ≠ '-')
        = (cs.take n).filter (fun c => c ≠ '-') ++ (cs.drop n).filter (fun c => c ≠ '-') := by
      conv_lhs => rw [← List.take_append_drop n cs]
      rw [List.filter_append]
    simp only [matchGroups, Bool.and_eq_true, beq_iff_eq] at h
    obtain ⟨⟨hlen, hall⟩, hm⟩ := h
    have htake : (cs.take n).filter (fun c => c ≠ '-') = cs.take n :=
      List.filter_eq_self.mpr (fun a ha => by
        simpa using lower_ne_hyphen a (List.all_eq_true.mp hall a ha))
    have hmemtake : ∀ c ∈ cs.take n, isLowerHexDigit c = true :=
      fun c hc => List.all_eq_true.mp hall c hc
    cases ns with
    | nil =>
      split at hm
      · rename_i heq
        refine ⟨?_, ?_⟩
        · rw [hfil, htake, heq]
          simp [hlen]
        · intro c hc
          rw [hfil, htake, heq] at hc
          simp at hc
          exact hmemtake c hc
      · rename_i hd tl rest heq1 heq2
        exact absurd heq1 (by simp)
      · simp at hm
    | cons m ms =>
      split at hm
      · rename_i heq1 heq2
        exact absurd heq1 (by simp)
      · rename_i rest heq1 heq2
        obtain ⟨ihlen, ihmem⟩ := ih rest hm
        have hdropfil : (cs.drop n).filter (fun c => c ≠ '-')
            = rest.filter (fun c => c ≠ '-') := by
          rw [heq2]
          simp [List.filter_cons]
        refine ⟨?_, ?_⟩
        · rw [hfil, htake, hdropfil, List.length_append, hlen, ihlen]
          simp [List.sum_cons]
        · intro c hc
          rw [hfil, htake, hdropfil] at hc
          rcases List.mem_append.mp hc with h1 | h2
          · exact hmemtake c h1
          · exact ihmem c h2
      · simp at hm
theorem matchGroups_last (g : List Char) (n : Nat) (hg : g.length = n)
    (hall : g.all isLowerHexDigit = true) : matchGroups [n] g = true := by
  subst hg
  simp [matchGroups, List.take_length, List.drop_length, hall]

theorem matchGroups_step (g rest : List Char) (n m : Nat) (ms : List Nat)
    (hg : g.length = n) (hall : g.all isLowerHexDigit = true)
    (hrec : matchGroups (m :: ms) rest = true) :
    matchGroups (n :: m :: ms) (g ++ '-' :: rest) = true := by
  subst hg
  have ht : (g ++ '-' :: rest).take g.length = g := List.take_left g _
  have hd : (g ++ '-' :: rest).drop g.length = '-' :: rest := List.drop_left g _
  simp [matchGroups, ht, hd, hall]
  simpa [matchGroups] using hrec

theorem canonical_matches (bs : List Nat) (hlen : bs.length = 16)
    (hb : ∀ b ∈ bs, b < 256) :
    matchGroups [8, 4, 4, 4, 12] (canonicalChars bs) = true := by
  have hs4 : ∀ b ∈ bs.take 4, b < 256 := fun b h => hb b (List.take_subset _ _ h)
  have hs42 : ∀ b ∈ (bs.drop 4).take 2, b < 256 :=
    fun b h => hb b (List.drop_subset _ _ (List.take_subset _ _ h))
  have hs62 : ∀ b ∈ (bs.drop 6).take 2, b < 256 :=
    fun b h => hb b (List.drop_subset _ _ (List.take_subset _ _ h))
  have hs82 : ∀ b ∈ (bs.drop 8).take 2, b < 256 :=
    fun b h => hb b (List.drop_subset _ _ (List.take_subset _ _ h))
  have hs10 : ∀ b ∈ bs.drop 10, b < 256 := fun b h => hb b (List.drop_subset _ _ h)
  unfold canonicalChars
  apply matchGroups_step _ _ _ _ _
    (by simp [renderHexChars_length, hlen])
    (renderHexChars_all _ hs4)
  apply matchGroups_step _ _ _ _ _
    (by simp [renderHexChars_length, hlen])
    (renderHexChars_all _ hs42)
  apply matchGroups_step _ _ _ _ _
    (by simp [renderHexChars_length, hlen])
    (renderHexChars_all _ hs62)
  apply matchGroups_step _ _ _ _ _
    (by simp [renderHexChars_length, hlen])
    (renderHexChars_all _ hs82)
  exact matchGroups_last _ _
    (by simp [renderHexChars_length, hlen])
    (renderHexChars_all _ hs10)

theorem filter_hyphen_cons (xs : List Char) :
    ('-' :: xs).filter (fun c => c ≠ '-') = xs.filter (fun c => c ≠ '-') := by
  simp [List.filter_cons]

theorem canonical_decode (bs : List Nat) (hb : ∀ b ∈ bs, b < 256) :
    decodeHexList ((canonicalChars bs).filter (fun c => c ≠ '-')) = some bs := by
  have hs4 : ∀ b ∈ bs.take 4, b < 256 := fun b h => hb b (List.take_subset _ _ h)
  have hs42 : ∀ b ∈ (bs.drop 4).take 2, b < 256 :=
    fun b h => hb b (List.drop_subset _ _ (List.take_subset _ _ h))
  have hs62 : ∀ b ∈ (bs.drop 6).take 2, b < 256 :=
    fun b h => hb b (List.drop_subset _ _ (List.take_subset _ _ h))
  have hs82 : ∀ b ∈ (bs.drop 8).take 2, b < 256 :=
    fun b h => hb b (List.drop_subset _ _ (List.take_subset _ _ h))
  have hs10 : ∀ b ∈ bs.drop 10, b < 256 := fun b h => hb b (List.drop_subset _ _ h)
  unfold canonicalChars
  simp only [List.filter_append, filter_hyphen_cons]
  rw [filter_renderHexChars _ hs4, filter_renderHexChars _ hs42,
    filter_renderHexChars _ hs62, filter_renderHexChars _ hs82,
    filter_renderHexChars _ hs10,
    ← renderHexChars_append, ← renderHexChars_append, ← renderHexChars_append,
    ← renderHexChars_append, take_drop_regroup]
  exact decode_renderHexChars bs hb

theorem fromString_canonical (v : Nat) (hv : v < 2 ^ 128) :
    FromString (⟨canonicalChars (beBytes 16 v)⟩ : Str) = some ⟨⟨128, v⟩⟩ := by
  unfold FromString parseUUIDString
  show (decodeHexList ((canonicalChars (beBytes 16 v)).filter (fun c => c ≠ '-'))).map _
    = some ⟨⟨128, v⟩⟩
  rw [canonical_decode _ (beBytes_lt 16 v)]
  simp only [Option.map_some', Option.some.injEq]
  unfold BitField.fromBytes
  rw [beBytes_length, beVal_beBytes]
  have h1 : (8 : Nat) * 16 = 128 := by norm_num
  rw [h1, Nat.mod_eq_of_lt hv]

theorem accessors_ok_128 (v : Nat) :
    (∃ w, LDID.Timestamp ⟨⟨128, v⟩⟩ = .ok w) ∧ (∃ w, LDID.Version ⟨⟨128, v⟩⟩ = .ok w)
      ∧ (∃ w, LDID.RandA ⟨⟨128, v⟩⟩ = .ok w) ∧ (∃ w, LDID.Variant ⟨⟨128, v⟩⟩ = .ok w)
      ∧ (∃ w, LDID.RandB ⟨⟨128, v⟩⟩ = .ok w) := by
  refine ⟨?_, ?_, ?_, ?_, ?_⟩ <;>
    simp [LDID.Timestamp, LDID.Version, LDID.RandA, LDID.Variant, LDID.RandB,
      BitField.extractUint64, timestampOffset, timestampSize, versionOffset,
      versionSize, randAOffset, randASize, variantOffset, variantSize,
      randBOffset, randBSize]

/-! ### Claims -/

/-- C1: for every LDID x constructed by NewWithGenerator, parsing its
canonical string back with FromString succeeds and yields an LDID
byte-for-byte equal to x, i.e. FromString (x.String) = some x. -/
theorem fromString_roundtrip (g : Generator) (x : LDID)
    (h : NewWithGenerator g = .ok x) :
    FromString (LDID.String x) = some x := by
  obtain ⟨a, b, h12, h62, rfl⟩ := newWithGenerator_inv g x h
  have hx : LDID.String ⟨⟨128, mkVal g.generateUnixTimestampMS a b⟩⟩
      = ⟨canonicalChars (beBytes 16 (mkVal g.generateUnixTimestampMS a b))⟩ := by
    unfold LDID.String BitField.bytes
    norm_num
  rw [hx]
  exact fromString_canonical _ (mkVal_lt g.generateUnixTimestampMS a b)

/-- Witness for C1: the round trip at a concrete constructed LDID. -/
theorem fromString_roundtrip_witness :
    FromString (LDID.String ⟨⟨128, mkVal 100 5 6⟩⟩) = some ⟨⟨128, mkVal 100 5 6⟩⟩ :=
  fromString_roundtrip ⟨100, fun n => if n = 12 then .ok 5 else .ok 6⟩
    ⟨⟨128, mkVal 100 5 6⟩⟩ rfl

/-- C2 counterexample: the input "abcd" reduces to 4 hex characters, not
32, yet FromString succeeds (returns no error), refuting the claim that
FromString errors whenever the hyphen-stripped input is not exactly 32
hex characters. -/
theorem fromString_accepts_short_input :
    (FromString "abcd").isSome = true
      ∧ (("abcd" : Str).data.filter (fun c => c ≠ '-')).length = 4 := by
  exact ⟨rfl, rfl⟩

/-- C2 (amended): FromString succeeds exactly when the hyphen-stripped
input has even length and consists only of hex characters (upper or
lower case); no particular length such as 32 is required. -/
theorem fromString_succeeds_iff_even_hex (s : Str) :
    (FromString s).isSome = true ↔
      ((s.data.filter (fun c => c ≠ '-')).length % 2 = 0
        ∧ ∀ c ∈ s.data.filter (fun c => c ≠ '-'), (hexCharVal c).isSome = true) := by
  have h1 : (FromString s).isSome
      = (decodeHexList (s.data.filter (fun c => c ≠ '-'))).isSome := by
    unfold FromString parseUUIDString
    cases decodeHexList (s.data.filter (fun c => c ≠ '-')) <;> rfl
  rw [h1]
  exact decodeHexList_isSome _

/-- Witness for the amended theorem of C2 at the concrete input "abcd". -/
theorem fromString_succeeds_iff_even_hex_witness :
    ((("abcd" : Str).data.filter (fun c => c ≠ '-')).length % 2 = 0
      ∧ ∀ c ∈ ("abcd" : Str).data.filter (fun c => c ≠ '-'),
          (hexCharVal c).isSome = true) :=
  (fromString_succeeds_iff_even_hex "abcd").mp rfl

/-- C3: every accessor (Timestamp, Version, RandA, Variant, RandB)
succeeds -- returns ok, never the RangeError branch -- on a validly
constructed LDID: one returned by NewWithGenerator, and one returned by
FromString from a string matching the canonical pattern. -/
theorem accessors_always_succeed (g : Generator) (x : LDID) (s : Str) (y : LDID)
    (hx : NewWithGenerator g = .ok x)
    (hs : matchesCanonicalPattern s = true) (hy : FromString s = some y) :
    ((∃ v, x.Timestamp = .ok v) ∧ (∃ v, x.Version = .ok v) ∧ (∃ v, x.RandA = .ok v)
      ∧ (∃ v, x.Variant = .ok v) ∧ (∃ v, x.RandB = .ok v))
    ∧ ((∃ v, y.Timestamp = .ok v) ∧ (∃ v, y.Version = .ok v) ∧ (∃ v, y.RandA = .ok v)
      ∧ (∃ v, y.Variant = .ok v) ∧ (∃ v, y.RandB = .ok v)) := by
  constructor
  · obtain ⟨a, b, h12, h62, rfl⟩ := newWithGenerator_inv g x hx
    exact accessors_ok_128 _
  · obtain ⟨hlen, hmem⟩ := matchGroups_strip [8, 4, 4, 4, 12] s.data hs
    have hlen32 : (s.data.filter (fun c => c ≠ '-')).length = 32 := by
      rw [hlen]
      simp [List.sum_cons, List.sum_nil]
    have hsome : (decodeHexList (s.data.filter (fun c => c ≠ '-'))).isSome = true :=
      (decodeHexList_isSome _).mpr
        ⟨by omega, fun c hc => hexCharVal_isSome_of_lower c (hmem c hc)⟩
    obtain ⟨bs, hbs⟩ := Option.isSome_iff_exists.mp hsome
    have hblen : bs.length = 16 := by
      have h2 := decodeHexList_length _ bs hbs
      omega
    have hfs : FromString s = some ⟨BitField.fromBytes bs⟩ := by
      unfold FromString parseUUIDString
      rw [hbs]
      rfl
    rw [hfs] at hy
    injection hy with hy'
    subst hy'
    have hb128 : BitField.fromBytes bs = ⟨128, beVal bs⟩ := by
      unfold BitField.fromBytes
      rw [hblen]
    rw [hb128]
    exact accessors_ok_128 _

/-- Witness for C3 at a concrete generator and concrete canonical string. -/
theorem accessors_always_succeed_witness :
    ((∃ v, LDID.Timestamp ⟨⟨128, mkVal 100 5 6⟩⟩ = .ok v)
      ∧ (∃ v, LDID.Version ⟨⟨128, mkVal 100 5 6⟩⟩ = .ok v)
      ∧ (∃ v, LDID.RandA ⟨⟨128, mkVal 100 5 6⟩⟩ = .ok v)
      ∧ (∃ v, LDID.Variant ⟨⟨128, mkVal 100 5 6⟩⟩ = .ok v)
      ∧ (∃ v, LDID.RandB ⟨⟨128, mkVal 100 5 6⟩⟩ = .ok v))
    ∧ ((∃ v, LDID.Timestamp ⟨⟨128, mkVal 100 5 6⟩⟩ = .ok v)
      ∧ (∃ v, LDID.Version ⟨⟨128, mkVal 100 5 6⟩⟩ = .ok v)
      ∧ (∃ v, LDID.RandA ⟨⟨128, mkVal 100 5 6⟩⟩ = .ok v)
      ∧ (∃ v, LDID.Variant ⟨⟨128, mkVal 100 5 6⟩⟩ = .ok v)
      ∧ (∃ v, LDID.RandB ⟨⟨128, mkVal 100 5 6⟩⟩ = .ok v)) := by
  have hy : FromString (LDID.String ⟨⟨128, mkVal 100 5 6⟩⟩)
      = some ⟨⟨128, mkVal 100 5 6⟩⟩ := by rfl
  have hs : matchesCanonicalPattern (LDID.String ⟨⟨128, mkVal 100 5 6⟩⟩) = true := by rfl
  have hx : NewWithGenerator ⟨100, fun n => if n = 12 then .ok 5 else .ok 6⟩
      = .ok ⟨⟨128, mkVal 100 5 6⟩⟩ := by rfl
  exact accessors_always_succeed _ _ _ _ hx hs hy

/-- C4 (code evidence): with a functioning entropy source, a 1-bit draw
always returns 0: GenerateRandomBits hands max = 2^n - 1 to
crypto/rand.Int, whose upper bound is exclusive, so the value
2^n - 1 (here 1) is unreachable and the full range [0, 2^n) claimed by
the spec is not drawn from. -/
theorem generateRandomBits_one_bit_always_zero (k : Nat) :
    GenerateRandomBits (ReadResult.ok k) 1 = .ok 0 := by
  simp only [GenerateRandomBits]
  norm_num [Nat.mod_one]

/-- C5: GenerateRandomBits errors for every width n ≤ 0 and every n > 64,
accepts exactly 64 (returning a value when the entropy source works),
and propagates an entropy-source read failure as an error. -/
theorem generateRandomBits_width_policy :
    (∀ (r : ReadResult) (n : Int), (n ≤ 0 ∨ 64 < n) →
        ∃ e, GenerateRandomBits r n = .error e)
    ∧ (∀ k : Nat, ∃ v, GenerateRandomBits (ReadResult.ok k) 64 = .ok v)
    ∧ (∀ (msg : Str) (n : Int), 1 ≤ n → n ≤ 64 →
        ∃ e, GenerateRandomBits (ReadResult.fail msg) n = .error e) := by
  refine ⟨?_, ?_, ?_⟩
  · intro r n hn
    simp only [GenerateRandomBits]
    by_cases h0 : n < 0
    · refine ⟨"crypto/rand: argument to Int is <= 0", ?_⟩
      rw [if_pos h0]
      norm_num
    · rcases hn with hle | hgt
      · have hz : n = 0 := by omega
        subst hz
        refine ⟨"crypto/rand: argument to Int is <= 0", ?_⟩
        norm_num
      · have e3 : 36893488147419103232 ≤ 2 ^ n.toNat := by
          calc (36893488147419103232 : Nat) = 2 ^ 65 := by norm_num
          _ ≤ 2 ^ n.toNat := Nat.pow_le_pow_right (by norm_num) (by omega)
        refine ⟨"failed to generate random bits: n is too large to fit in a uint64", ?_⟩
        rw [if_neg h0, if_pos (show (2 : Nat) ^ 64 ≤ 2 ^ n.toNat - 1 by norm_num; omega)]
  · intro k
    refine ⟨k % (2 ^ 64 - 1), ?_⟩
    simp only [GenerateRandomBits]
    rw [show Int.toNat 64 = 64 from rfl]
    norm_num
  · intro msg n h1 h64
    have e1 : 2 ^ n.toNat ≤ 18446744073709551616 := by
      calc 2 ^ n.toNat ≤ 2 ^ 64 := Nat.pow_le_pow_right (by norm_num) (by omega)
      _ = 18446744073709551616 := by norm_num
    have e2 : 2 ≤ 2 ^ n.toNat := by
      calc (2 : Nat) = 2 ^ 1 := by norm_num
      _ ≤ 2 ^ n.toNat := Nat.pow_le_pow_right (by norm_num) (by omega)
    refine ⟨"failed to generate random bits: " ++ msg, ?_⟩
    simp only [GenerateRandomBits]
    rw [if_neg (show ¬ n < 0 by omega),
      if_neg (show ¬ (2 : Nat) ^ 64 ≤ 2 ^ n.toNat - 1 by norm_num; omega),
      if_neg (show ¬ (2 ^ n.toNat - 1 = 0) by omega)]

/-- Witness for C5 at concrete widths 0, 65, 64 and a failing reader. -/
theorem generateRandomBits_width_policy_witness :
    (∃ e, GenerateRandomBits (ReadResult.ok 3) 0 = .error e)
    ∧ (∃ e, GenerateRandomBits (ReadResult.ok 3) 65 = .error e)
    ∧ (∃ v, GenerateRandomBits (ReadResult.ok 3) 64 = .ok v)
    ∧ (∃ e, GenerateRandomBits (ReadResult.fail "mock error") 30 = .error e) :=
  ⟨generateRandomBits_width_policy.1 (ReadResult.ok 3) 0 (Or.inl (by norm_num)),
    generateRandomBits_width_policy.1 (ReadResult.ok 3) 65 (Or.inr (by norm_num)),
    generateRandomBits_width_policy.2.1 3,
    generateRandomBits_width_policy.2.2 "mock error" 30 (by norm_num) (by norm_num)⟩

/-- C6: for each of the five declared (offset, width) pairs, extracting
the field right after inserting value v at it yields v mod 2^width, on
any 128-bit buffer; and at construction level the Timestamp, RandA and
RandB accessors of a constructed LDID return the generator outputs
reduced mod 2^48, 2^12 and 2^62 respectively. -/
theorem insert_extract_fields :
    (∀ (bf : BitField) (off w v : Nat), bf.size = 128 →
        ((off, w) = (0, 48) ∨ (off, w) = (48, 4) ∨ (off, w) = (52, 12)
          ∨ (off, w) = (64, 2) ∨ (off, w) = (66, 62)) →
        (bf.insertUint64 off w v) >>= (fun bf2 => bf2.extractUint64 off w)
          = .ok (v % 2 ^ w))
    ∧ (∀ (g : Generator) (x : LDID) (a b : Nat),
        g.generateRandomBits 12 = .ok a → g.generateRandomBits 62 = .ok b →
        NewWithGenerator g = .ok x →
        x.Timestamp = .ok (g.generateUnixTimestampMS % 2 ^ 48)
          ∧ x.RandA = .ok (a % 2 ^ 12) ∧ x.RandB = .ok (b % 2 ^ 62)) := by
  constructor
  · intro bf off w v hsz hmem
    obtain ⟨sz, u⟩ := bf
    simp only [BitField.size] at hsz
    subst hsz
    rcases hmem with h | h | h | h | h <;>
      (simp only [Prod.mk.injEq] at h; obtain ⟨rfl, rfl⟩ := h) <;>
      simp only [BitField.insertUint64, BitField.extractUint64] <;>
      norm_num [ok_bind]
    · have hx := extract_after_insert u 0 48 v (by norm_num)
      norm_num at hx
      exact hx
    · have hx := extract_after_insert u 48 4 v (by norm_num)
      norm_num at hx
      exact hx
    · have hx := extract_after_insert u 52 12 v (by norm_num)
      norm_num at hx
      exact hx
    · have hx := extract_after_insert u 64 2 v (by norm_num)
      norm_num at hx
      exact hx
    · have hx := extract_after_insert u 66 62 v (by norm_num)
      norm_num at hx
      exact hx
  · intro g x a b h12 h62 hx
    rw [newWithGenerator_ok g a b h12 h62] at hx
    injection hx with hx'
    subst hx'
    exact ⟨Timestamp_mk _ _ _, RandA_mk _ _ _, RandB_mk _ _ _⟩

/-- Witness for C6: the randA field at a concrete value, and the all-ones
64-bit timestamp truncating to 2^48 - 1. -/
theorem insert_extract_fields_witness :
    ((BitField.insertUint64 ⟨128, 0⟩ 52 12 61680)
        >>= (fun bf2 => bf2.extractUint64 52 12) = .ok (61680 % 2 ^ 12))
    ∧ LDID.Timestamp ⟨⟨128, mkVal (2 ^ 64 - 1) 5 6⟩⟩ = .ok ((2 ^ 64 - 1) % 2 ^ 48) :=
  ⟨insert_extract_fields.1 ⟨128, 0⟩ 52 12 61680 rfl
      (Or.inr (Or.inr (Or.inl rfl))),
    (insert_extract_fields.2 ⟨2 ^ 64 - 1, fun n => if n = 12 then .ok 5 else .ok 6⟩
      ⟨⟨128, mkVal (2 ^ 64 - 1) 5 6⟩⟩ 5 6 rfl rfl
      (newWithGenerator_ok ⟨2 ^ 64 - 1, fun n => if n = 12 then .ok 5 else .ok 6⟩
        5 6 rfl rfl)).1⟩

/-- C7: every LDID constructed without error by NewWithGenerator has
Version = 7 and Variant = 2, whatever the generator returns. -/
theorem version_variant_constant (g : Generator) (x : LDID)
    (h : NewWithGenerator g = .ok x) :
    x.Version = .ok 7 ∧ x.Variant = .ok 2 := by
  obtain ⟨a, b, h12, h62, rfl⟩ := newWithGenerator_inv g x h
  exact ⟨Version_mk _ _ _, Variant_mk _ _ _⟩

/-- Witness for C7 at a concrete generator. -/
theorem version_variant_constant_witness :
    LDID.Version ⟨⟨128, mkVal 3 1 2⟩⟩ = .ok 7
      ∧ LDID.Variant ⟨⟨128, mkVal 3 1 2⟩⟩ = .ok 2 :=
  version_variant_constant ⟨3, fun n => if n = 12 then .ok 1 else .ok 2⟩
    ⟨⟨128, mkVal 3 1 2⟩⟩ rfl

/-- C8: if the 12-bit random draw of the generator fails, NewWithGenerator
returns that very error (and no LDID); likewise when the 12-bit draw
succeeds and the 62-bit draw fails. -/
theorem new_propagates_rand_errors (g : Generator) (e : Str) :
    (g.generateRandomBits 12 = .error e → NewWithGenerator g = .error e)
    ∧ (∀ a, g.generateRandomBits 12 = .ok a → g.generateRandomBits 62 = .error e →
        NewWithGenerator g = .error e) := by
  constructor
  · intro h12
    unfold NewWithGenerator
    simp only [h12, error_bind]
  · intro a h12 h62
    unfold NewWithGenerator
    simp only [h12, h62, ok_bind, error_bind]

/-- Witness for C8 at generators failing on each draw. -/
theorem new_propagates_rand_errors_witness :
    NewWithGenerator ⟨0, fun _ => .error "mock error"⟩ = .error "mock error"
      ∧ NewWithGenerator ⟨0, fun n => if n = 12 then .ok 1 else .error "mock error"⟩
          = .error "mock error" :=
  ⟨(new_propagates_rand_errors ⟨0, fun _ => .error "mock error"⟩ "mock error").1 rfl,
    (new_propagates_rand_errors
      ⟨0, fun n => if n = 12 then .ok 1 else .error "mock error"⟩ "mock error").2 1 rfl rfl⟩

/-- C9: the canonical string of every LDID constructed by
NewWithGenerator matches the anchored pattern of 8-4-4-4-12 groups of
lowercase hex digits separated by hyphens. -/
theorem string_matches_canonical_pattern (g : Generator) (x : LDID)
    (h : NewWithGenerator g = .ok x) :
    matchesCanonicalPattern (LDID.String x) = true := by
  obtain ⟨a, b, h12, h62, rfl⟩ := newWithGenerator_inv g x h
  have hx : LDID.String ⟨⟨128, mkVal g.generateUnixTimestampMS a b⟩⟩
      = ⟨canonicalChars (beBytes 16 (mkVal g.generateUnixTimestampMS a b))⟩ := by
    unfold LDID.String BitField.bytes
    norm_num
  rw [matchesCanonicalPattern, hx]
  exact canonical_matches _ (beBytes_length _ _) (beBytes_lt _ _)

/-- Witness for C9 at a concrete generator. -/
theorem string_matches_canonical_pattern_witness :
    matchesCanonicalPattern (LDID.String ⟨⟨128, mkVal 100 5 6⟩⟩) = true :=
  string_matches_canonical_pattern ⟨100, fun n => if n = 12 then .ok 5 else .ok 6⟩
    ⟨⟨128, mkVal 100 5 6⟩⟩ rfl

/-- C10: NewWithGenerator depends only on the three values the generator
returns: two generators agreeing on the timestamp and on the 12-bit and
62-bit draws produce equal results, and when both succeed the LDIDs are
byte-for-byte identical with identical canonical strings. -/
theorem new_deterministic_in_outputs (g1 g2 : Generator)
    (ht : g1.generateUnixTimestampMS = g2.generateUnixTimestampMS)
    (h12 : g1.generateRandomBits 12 = g2.generateRandomBits 12)
    (h62 : g1.generateRandomBits 62 = g2.generateRandomBits 62) :
    NewWithGenerator g1 = NewWithGenerator g2
    ∧ ∀ x1 x2, NewWithGenerator g1 = .ok x1 → NewWithGenerator g2 = .ok x2 →
        x1.Bytes = x2.Bytes ∧ LDID.String x1 = LDID.String x2 := by
  have hmain : NewWithGenerator g1 = NewWithGenerator g2 := by
    unfold NewWithGenerator
    simp only [ht, h12, h62]
  refine ⟨hmain, ?_⟩
  intro x1 x2 hx1 hx2
  rw [hmain, hx2] at hx1
  injection hx1 with h
  subst h
  exact ⟨rfl, rfl⟩

/-- Witness for C10: two syntactically different generators agreeing on
all three outputs. -/
theorem new_deterministic_in_outputs_witness :
    NewWithGenerator ⟨7, fun n => if n = 12 then .ok 1 else .ok 2⟩
      = NewWithGenerator ⟨7, fun n => if n = 62 then .ok 2
          else if n = 12 then .ok 1 else .error "other"⟩ :=
  (new_deterministic_in_outputs _ _ rfl rfl rfl).1
